import Mathlib

/-! # Verification of the kamu-molecule-bridge reconciliation engine

This file gives a shallow embedding, in Lean 4, of the core data model and
algorithms of the bridge indexer (Catalogue Syncer, Token Transfer Projector,
Reconciler helpers, adaptive log fetching, and the `IpnftUid` string codec),
translated from the Rust sources, together with theorems settling the frozen
specification claims about them.

Modelling conventions:
* `HashMap<K, V>` is modelled as an association list `List (K × V)`; only
  lookup/membership matter to the claims, so iteration order is immaterial.
* `HashSet<A>` is modelled as a `List A` with set-semantics insertion and
  removal.
* `Address` (20 bytes) and `U256` are modelled as `Nat`; the zero address is
  `0`.  Where 256-bit overflow semantics matter they are made explicit.
* Fallible Rust code (`eyre::Result`) is modelled with `Except String`.
* External effects (RPC calls, the multisig oracle, the downstream GraphQL
  API) are passed in as explicit function arguments ("oracles").
-/

set_option autoImplicit false

namespace MoleculeBridge

abbrev Address := Nat

/-- `Address::ZERO`. -/
def ZERO_ADDRESS : Address := 0

abbrev U256 := Nat

abbrev DatasetID := String

abbrev AccountID := String

/-! ## Association-list model of `HashMap` -/

/-- Model of `std::collections::HashMap` as an association list. -/
abbrev AMap (K V : Type) := List (K × V)

variable {K V : Type} [DecidableEq K]

/-- `HashMap::get`. -/
def alookup : AMap K V → K → Option V
  | [], _ => none
  | (k', v) :: rest, k => if k' = k then some v else alookup rest k

/-- `HashMap::contains_key`. -/
def acontains (m : AMap K V) (k : K) : Bool := (alookup m k).isSome

/-- `HashMap::remove` (membership-wise: removes every binding of the key). -/
def aremove (m : AMap K V) (k : K) : AMap K V := m.filter (fun kv => kv.1 ≠ k)

/-- `HashMap::insert`: the key is bound to exactly the new value afterwards. -/
def ainsert (m : AMap K V) (k : K) (v : V) : AMap K V := (k, v) :: aremove m k

/-- `HashMap::extend`: insert every binding of `m₂` into `m₁`. -/
def aextend (m₁ m₂ : AMap K V) : AMap K V := m₂.foldl (fun acc kv => ainsert acc kv.1 kv.2) m₁

/-- `HashMap::keys`. -/
def akeys (m : AMap K V) : List K := m.map Prod.fst

@[simp]
theorem alookup_nil (k : K) : alookup ([] : AMap K V) k = none := rfl

@[simp]
theorem alookup_cons (k' k : K) (v : V) (rest : AMap K V) :
    alookup ((k', v) :: rest) k = if k' = k then some v else alookup rest k := rfl

theorem alookup_aremove (m : AMap K V) (k k' : K) (h : k' ≠ k) :
    alookup (aremove m k) k' = alookup m k' := by
  induction m with
  | nil => rfl
  | cons kv rest ih =>
    cases kv with
    | mk k₁ v₁ =>
      by_cases hk : k₁ = k
      · subst hk
        have hne : ¬k₁ = k' := fun hc => h hc.symm
        rw [show aremove ((k₁, v₁) :: rest) k₁ = aremove rest k₁ by simp [aremove]]
        rw [ih]
        simp [alookup, hne]
      · rw [show aremove ((k₁, v₁) :: rest) k = (k₁, v₁) :: aremove rest k by
          simp [aremove, hk]]
        by_cases h₁ : k₁ = k'
        · simp [alookup, h₁]
        · simp [alookup, h₁, ih]

theorem alookup_aremove_self (m : AMap K V) (k : K) :
    alookup (aremove m k) k = none := by
  induction m with
  | nil => rfl
  | cons kv rest ih =>
    cases kv with
    | mk k₁ v₁ =>
      by_cases hk : k₁ = k
      · simpa [aremove, List.filter_cons, hk] using ih
      · simpa [aremove, List.filter_cons, hk, alookup] using ih

@[simp]
theorem alookup_ainsert_self (m : AMap K V) (k : K) (v : V) :
    alookup (ainsert m k v) k = some v := by
  simp [ainsert, alookup]

theorem alookup_ainsert_ne (m : AMap K V) (k k' : K) (v : V) (h : k' ≠ k) :
    alookup (ainsert m k v) k' = alookup m k' := by
  simp only [ainsert, alookup]
  rw [if_neg (fun hc => h hc.symm)]
  exact alookup_aremove m k k' h

/-! ## List model of `HashSet` -/

variable {A : Type} [DecidableEq A]

/-- `HashSet::insert`. -/
def sinsert (s : List A) (a : A) : List A := if a ∈ s then s else s ++ [a]

/-- `HashSet::extend` / `FromIterator`. -/
def sextend (s : List A) (new : List A) : List A := new.foldl sinsert s

/-- `HashSet::remove`. -/
def sremove (s : List A) (a : A) : List A := s.filter (fun x => x ≠ a)

@[simp]
theorem mem_sinsert (s : List A) (a b : A) : b ∈ sinsert s a ↔ b = a ∨ b ∈ s := by
  by_cases h : a ∈ s
  · simp only [sinsert, if_pos h]
    constructor
    · exact Or.inr
    · rintro (rfl | hb)
      · exact h
      · exact hb
  · simp only [sinsert, if_neg h, List.mem_append, List.mem_singleton]
    tauto

@[simp]
theorem mem_sextend (s : List A) (new : List A) (a : A) :
    a ∈ sextend s new ↔ a ∈ s ∨ a ∈ new := by
  induction new generalizing s with
  | nil => simp [sextend]
  | cons b rest ih =>
    simp only [sextend, List.foldl_cons, List.mem_cons]
    rw [show List.foldl sinsert (sinsert s b) rest = sextend (sinsert s b) rest from rfl, ih]
    simp only [mem_sinsert]
    tauto

@[simp]
theorem mem_sremove (s : List A) (a b : A) : b ∈ sremove s a ↔ b ∈ s ∧ b ≠ a := by
  simp [sremove, List.mem_filter]

/-! ## Domain data model (from `molecule_ipnft` and `kamu_node_api_client`) -/

/-- `IpnftUid`: pair of IPNFT contract address and 256-bit token id
(`src/domain/molecule_ipnft/src/entities/ipnft_uid.rs`). -/
structure IpnftUid where
  ipnft_address : Address
  token_id : U256
deriving DecidableEq, Repr

/-- `MoleculeAccessLevel` (`kamu_node_api_client.rs`): closed enum of per-file
access classifications. -/
inductive MoleculeAccessLevel where
  | Public
  | Admin
  | Admin2
  | Holder
deriving DecidableEq, Repr

/-- `VersionedFileEntry` (`kamu_node_api_client.rs`). -/
structure VersionedFileEntry where
  offset : Nat
  path : String
deriving DecidableEq, Repr

/-- `ChangedVersionedFiles = HashMap<DatasetID, VersionedFileEntry>`. -/
abbrev ChangedVersionedFiles := AMap DatasetID VersionedFileEntry

/-- `MoleculeAccessLevelEntryMap = HashMap<DatasetID, MoleculeAccessLevel>`. -/
abbrev MoleculeAccessLevelEntryMap := AMap DatasetID MoleculeAccessLevel

/-- `VersionedFilesEntries` (`kamu_node_api_client.rs`): one data room's batch
of changes; `added_entities` and `removed_entities` are kept disjoint by the
client (`kamu_node_api_client_impl.rs`, lines 213-225). -/
structure VersionedFilesEntries where
  latest_data_room_offset : Nat
  added_entities : ChangedVersionedFiles
  removed_entities : ChangedVersionedFiles

/-- `MoleculeProjectEntry` (`kamu_node_api_client.rs`). -/
structure MoleculeProjectEntry where
  offset : Nat
  op : Nat
  ipnft_uid : IpnftUid
  symbol : String
  project_account_id : AccountID
  data_room_dataset_id : DatasetID
  announcements_dataset_id : DatasetID

/-- `VersionedFileEntryWithMoleculeAccessLevel` (`app.rs`, lines 96-100). -/
structure VersionedFileEntryWithMoleculeAccessLevel where
  entry : VersionedFileEntry
  molecule_access_level : MoleculeAccessLevel
deriving DecidableEq, Repr

/-- `ProjectProjection` (`app.rs`, lines 88-94). -/
structure ProjectProjection where
  entry : MoleculeProjectEntry
  latest_data_room_offset : Nat
  actual_files_map : AMap DatasetID VersionedFileEntryWithMoleculeAccessLevel
  removed_files_map : AMap DatasetID VersionedFileEntry

/-! ## Catalogue Syncer: per-project file-map update (claims C1, C2)

`load_molecule_projects` (`app.rs`), section "II. Process existing projects":
for each existing project with a batch of versioned-file changes it rebuilds
`actual_files_map`, `removed_files_map` and the data-room offset
(`app.rs`, lines 909-936).  The embedding below reproduces those statements
verbatim; the access-level change detection feeds only `detected_changes`,
which claims C1/C2 do not mention, so it is not part of this function. -/

/-- `build_added_file_entries_with_molecule_access_level_map` (`app.rs`,
lines 1552-1577): keep the added entries whose access level is known. -/
def build_added_file_entries_with_molecule_access_level_map
    (added_entities : ChangedVersionedFiles)
    (molecule_access_levels_map : MoleculeAccessLevelEntryMap) :
    AMap DatasetID VersionedFileEntryWithMoleculeAccessLevel :=
  added_entities.filterMap (fun kv =>
    match alookup molecule_access_levels_map kv.1 with
    | none => none
    | some access => some (kv.1, ⟨kv.2, access⟩))

/-- The `actual_files_map` / `removed_files_map` / offset update applied to one
existing project (`app.rs`, lines 909-936):

```rust
existing_project.actual_files_map.retain(|dataset_id, _| {
    versioned_files_entries.removed_entities.contains_key(dataset_id)
});
existing_project.actual_files_map.extend(added_file_entries_map);
existing_project.removed_files_map.extend(versioned_files_entries.removed_entities);
existing_project.latest_data_room_offset = versioned_files_entries.latest_data_room_offset;
```

Note the `retain` predicate: it KEEPS exactly the entries whose dataset_id is
in this batch's `removed_entities` and drops all the others. -/
def update_existing_project_files (project : ProjectProjection)
    (versioned_files_entries : VersionedFilesEntries)
    (molecule_access_levels_map : MoleculeAccessLevelEntryMap) : ProjectProjection :=
  let added_file_entries_map := build_added_file_entries_with_molecule_access_level_map
    versioned_files_entries.added_entities molecule_access_levels_map
  let actual₁ := project.actual_files_map.filter
    (fun kv => acontains versioned_files_entries.removed_entities kv.1)
  let actual₂ := aextend actual₁ added_file_entries_map
  let removed' := aextend project.removed_files_map versioned_files_entries.removed_entities
  { project with
      actual_files_map := actual₂
      removed_files_map := removed'
      latest_data_room_offset := versioned_files_entries.latest_data_room_offset }

/-- A concrete project entry used by the evaluation theorems. -/
def sampleProjectEntry : MoleculeProjectEntry :=
  { offset := 0
    op := 0
    ipnft_uid := ⟨1, 1⟩
    symbol := "FOO"
    project_account_id := "project-account"
    data_room_dataset_id := "dr-core"
    announcements_dataset_id := "ann-core" }

/-- C1 failing input: a project knowing files `d1`, `d2`; the batch removes `d1`. -/
def c1Project : ProjectProjection :=
  { entry := sampleProjectEntry
    latest_data_room_offset := 3
    actual_files_map :=
      [("d1", ⟨⟨1, "a.txt"⟩, .Public⟩), ("d2", ⟨⟨2, "b.txt"⟩, .Holder⟩)]
    removed_files_map := [] }

/-- C1 failing input, batch part: `d1` is removed, nothing is added. -/
def c1Batch : VersionedFilesEntries :=
  { latest_data_room_offset := 7
    added_entities := []
    removed_entities := [("d1", ⟨1, "a.txt"⟩)] }

/-- C1: on the failing input, the code KEEPS removed `d1` inside
`actual_files_map` and DROPS untouched `d2` from it — the exact opposite of
the claimed behaviour ("move removals out, keep untouched files").  The
`retain` predicate in `app.rs`, line 915, is inverted. -/
theorem c1_retain_predicate_inverted :
    acontains (update_existing_project_files c1Project c1Batch []).actual_files_map "d1" = true
    ∧ acontains (update_existing_project_files c1Project c1Batch []).actual_files_map "d2" = false
    ∧ acontains (update_existing_project_files c1Project c1Batch []).removed_files_map "d1" = true := by
  refine ⟨rfl, rfl, rfl⟩

/-- C2 failing input: a project knowing file `x`; the batch removes `x`. -/
def c2Project : ProjectProjection :=
  { entry := sampleProjectEntry
    latest_data_room_offset := 0
    actual_files_map := [("x", ⟨⟨5, "p.txt"⟩, .Admin⟩)]
    removed_files_map := [] }

/-- C2 failing input, batch part. -/
def c2Batch : VersionedFilesEntries :=
  { latest_data_room_offset := 9
    added_entities := []
    removed_entities := [("x", ⟨5, "p.txt"⟩)] }

/-- C2: after the run, dataset `x` is simultaneously in `actual_files_map`
(kept by the inverted `retain`) and in `removed_files_map` (added by the
`extend`) — the disjointness invariant is violated by the code. -/
theorem c2_disjointness_violated :
    acontains (update_existing_project_files c2Project c2Batch []).actual_files_map "x" = true
    ∧ acontains (update_existing_project_files c2Project c2Batch []).removed_files_map "x" = true := by
  refine ⟨rfl, rfl⟩

/-! ## IPNFT state and the Token Transfer Projector (claims C3, C4) -/

/-- `IpnftEventProjection` (`ipnft_event.rs`, lines 43-50). -/
structure IpnftEventProjection where
  symbol : Option String
  current_owner : Option Address
  former_owner : Option Address
  minted : Bool
  burnt : Bool
deriving DecidableEq, Repr

/-- `TokenProjection` (`app.rs`, lines 102-107). -/
structure TokenProjection where
  token_address : Address
  holder_balances : AMap Address U256
deriving DecidableEq, Repr

/-- `IpnftState` (`app.rs`, lines 75-80). -/
structure IpnftState where
  ipnft : IpnftEventProjection
  project : Option ProjectProjection
  token : Option TokenProjection

/-- `IptEventTransfer` (`ipt_event.rs`): the Rust fields `from` / `to` are
named `fromAddr` / `toAddr` here because `from` is a Lean keyword. -/
structure IptEventTransfer where
  token_address : Address
  fromAddr : Address
  toAddr : Address
  value : U256

/-- Modelled from the spec: the overflow behaviour of the 256-bit arithmetic
crate used for `*balance -= event.value` and the workspace's build profile
(overflow-checks) are not under `src/`; the spec states "underflow is a fatal
invariant violation" (§4.4) and "Balances never negative (implementation must
treat negative underflow as a bug, not saturate)" (§3), so `U256` subtraction
is modelled as exact when it does not underflow and as a fatal error when it
would. -/
def u256_sub_checked (a b : U256) : Except String U256 :=
  if b ≤ a then .ok (a - b) else .error "balance underflow"

/-- `participating_holders_balances : HashMap<IpnftUid, HashMap<Address, U256>>`. -/
abbrev ParticipatingHoldersBalances := AMap IpnftUid (AMap Address U256)

/-- The `from`-leg of one transfer (`app.rs`, lines 765-776): debit the sender
and record its new balance in the per-iteration delta map under the sender. -/
def token_debit_leg (ipnft_uid : IpnftUid) (token_projection : TokenProjection)
    (participating : ParticipatingHoldersBalances) (event : IptEventTransfer) :
    Except String (TokenProjection × ParticipatingHoldersBalances) :=
  if event.fromAddr ≠ ZERO_ADDRESS then
    let balance := (alookup token_projection.holder_balances event.fromAddr).getD 0
    match u256_sub_checked balance event.value with
    | .error msg => .error msg
    | .ok newBalance =>
      let changed_balances := (alookup participating ipnft_uid).getD []
      .ok ({ token_projection with
               holder_balances := ainsert token_projection.holder_balances
                 event.fromAddr newBalance },
           ainsert participating ipnft_uid (ainsert changed_balances event.fromAddr newBalance))
  else .ok (token_projection, participating)

/-- The `to`-leg of one transfer (`app.rs`, lines 778-789): credit the
recipient — but the delta map records the new balance under `event.from`
(line 788), not under `event.to`. -/
def token_credit_leg (ipnft_uid : IpnftUid) (token_projection : TokenProjection)
    (participating : ParticipatingHoldersBalances) (event : IptEventTransfer) :
    TokenProjection × ParticipatingHoldersBalances :=
  if event.toAddr ≠ ZERO_ADDRESS then
    let balance := (alookup token_projection.holder_balances event.toAddr).getD 0
    let newBalance := balance + event.value
    let changed_balances := (alookup participating ipnft_uid).getD []
    ({ token_projection with
         holder_balances := ainsert token_projection.holder_balances event.toAddr newBalance },
     ainsert participating ipnft_uid (ainsert changed_balances event.fromAddr newBalance))
  else (token_projection, participating)

/-- One iteration of the event loop of `process_token_transfer_events`
(`app.rs`, lines 742-790): resolve the token to its IPNFT (skip when
unmapped), require state and token projection, then apply both legs. -/
def process_one_token_transfer (token_address_ipnft_uid_mapping : AMap Address IpnftUid)
    (ipnft_state_map : AMap IpnftUid IpnftState)
    (participating : ParticipatingHoldersBalances) (event : IptEventTransfer) :
    Except String (AMap IpnftUid IpnftState × ParticipatingHoldersBalances) :=
  match alookup token_address_ipnft_uid_mapping event.token_address with
  | none => .ok (ipnft_state_map, participating)
  | some ipnft_uid =>
    match alookup ipnft_state_map ipnft_uid with
    | none => .error "IPNFT should be present"
    | some ipnft_state =>
      match ipnft_state.token with
      | none => .error "Token should be present"
      | some token_projection =>
        match token_debit_leg ipnft_uid token_projection participating event with
        | .error msg => .error msg
        | .ok (tp₁, part₁) =>
          let (tp₂, part₂) := token_credit_leg ipnft_uid tp₁ part₁ event
          .ok (ainsert ipnft_state_map ipnft_uid { ipnft_state with token := some tp₂ }, part₂)

/-- The event loop of `process_token_transfer_events`, threading the state map
and the delta map. -/
def process_token_transfer_events_from (token_address_ipnft_uid_mapping : AMap Address IpnftUid)
    (ipnft_state_map : AMap IpnftUid IpnftState)
    (participating : ParticipatingHoldersBalances) :
    List IptEventTransfer →
    Except String (AMap IpnftUid IpnftState × ParticipatingHoldersBalances)
  | [] => .ok (ipnft_state_map, participating)
  | event :: rest =>
    match process_one_token_transfer token_address_ipnft_uid_mapping ipnft_state_map
        participating event with
    | .error msg => .error msg
    | .ok (state_map', participating') =>
      process_token_transfer_events_from token_address_ipnft_uid_mapping state_map'
        participating' rest

/-- `process_token_transfer_events` (`app.rs`, lines 735-795): the delta map
starts empty each iteration. -/
def process_token_transfer_events (token_address_ipnft_uid_mapping : AMap Address IpnftUid)
    (ipnft_state_map : AMap IpnftUid IpnftState) (events : List IptEventTransfer) :
    Except String (AMap IpnftUid IpnftState × ParticipatingHoldersBalances) :=
  process_token_transfer_events_from token_address_ipnft_uid_mapping ipnft_state_map [] events

/-- C3 failing input: token contract `100` is mapped to IPNFT `⟨1, 1⟩`. -/
def c3Mapping : AMap Address IpnftUid := [(100, ⟨1, 1⟩)]

/-- C3 failing input: IPNFT `⟨1, 1⟩` has an attached token with no holders yet. -/
def c3StateMap : AMap IpnftUid IpnftState :=
  [(⟨1, 1⟩,
    { ipnft := { symbol := some "FOO", current_owner := some 9, former_owner := none,
                 minted := true, burnt := false }
      project := none
      token := some { token_address := 100, holder_balances := [] } })]

/-- C3 failing input: a mint transfer of 10 tokens to holder `2`. -/
def c3Event : IptEventTransfer :=
  { token_address := 100, fromAddr := ZERO_ADDRESS, toAddr := 2, value := 10 }

/-- C3: processing a mint transfer (`from = 0`, `to = 2`, `value = 10`), the
per-iteration delta map for IPNFT `⟨1, 1⟩` has NO entry for the mutated
recipient `2`, and instead records the recipient's new balance `10` under the
zero address `event.from` (`app.rs`, line 788 inserts `event.from`). -/
theorem c3_credit_recorded_under_sender_key :
    (process_token_transfer_events c3Mapping c3StateMap [c3Event]).map
      (fun r => (alookup ((alookup r.2 ⟨1, 1⟩).getD []) 2,
                 alookup ((alookup r.2 ⟨1, 1⟩).getD []) ZERO_ADDRESS))
      = .ok (none, some 10) := rfl

/-- C4: for a transfer with a resolvable token and `from ≠ 0`, writing
`bal` for the sender's pre-event balance: (a) when `value ≤ bal` the debit
succeeds and the sender's new balance is exactly `bal - value` (adding the
value back recovers `bal`: nothing was wrapped or saturated); (b) when
`value > bal` the whole `process_token_transfer_events` call fails with the
underflow error instead of saturating or wrapping. -/
theorem c4_token_debit_exact_or_fatal
    (token_address_ipnft_uid_mapping : AMap Address IpnftUid)
    (ipnft_state_map : AMap IpnftUid IpnftState)
    (ipnft_uid : IpnftUid) (ipnft_state : IpnftState) (token_projection : TokenProjection)
    (participating : ParticipatingHoldersBalances) (event : IptEventTransfer)
    (hmap : alookup token_address_ipnft_uid_mapping event.token_address = some ipnft_uid)
    (hstate : alookup ipnft_state_map ipnft_uid = some ipnft_state)
    (htoken : ipnft_state.token = some token_projection)
    (hfrom : event.fromAddr ≠ ZERO_ADDRESS) :
    (event.value ≤ (alookup token_projection.holder_balances event.fromAddr).getD 0 →
      ∃ tp₁ part₁,
        token_debit_leg ipnft_uid token_projection participating event = .ok (tp₁, part₁)
        ∧ alookup tp₁.holder_balances event.fromAddr
            = some ((alookup token_projection.holder_balances event.fromAddr).getD 0
                      - event.value)
        ∧ ((alookup token_projection.holder_balances event.fromAddr).getD 0 - event.value)
            + event.value
            = (alookup token_projection.holder_balances event.fromAddr).getD 0)
    ∧ ((alookup token_projection.holder_balances event.fromAddr).getD 0 < event.value →
      process_token_transfer_events token_address_ipnft_uid_mapping ipnft_state_map [event]
        = .error "balance underflow") := by
  constructor
  · intro hle
    have hsub : u256_sub_checked
        ((alookup token_projection.holder_balances event.fromAddr).getD 0) event.value
        = .ok ((alookup token_projection.holder_balances event.fromAddr).getD 0
                  - event.value) := by
      simp [u256_sub_checked, hle]
    refine ⟨{ token_projection with
                holder_balances := ainsert token_projection.holder_balances event.fromAddr
                  ((alookup token_projection.holder_balances event.fromAddr).getD 0
                    - event.value) },
            ainsert participating ipnft_uid
              (ainsert ((alookup participating ipnft_uid).getD []) event.fromAddr
                ((alookup token_projection.holder_balances event.fromAddr).getD 0
                  - event.value)),
            ?_, ?_, ?_⟩
    · simp [token_debit_leg, hfrom, hsub]
    · simp [alookup_ainsert_self]
    · exact Nat.sub_add_cancel hle
  · intro hlt
    have hnle : ¬event.value ≤ (alookup token_projection.holder_balances event.fromAddr).getD 0 :=
      Nat.not_le.mpr hlt
    simp [process_token_transfer_events, process_token_transfer_events_from,
      process_one_token_transfer, hmap, hstate, htoken, token_debit_leg, hfrom,
      u256_sub_checked, hnle]

/-- Concrete token projection for the C4 witness. -/
def c4TokenProjection : TokenProjection := { token_address := 100, holder_balances := [(7, 5)] }

/-- Concrete IPNFT state for the C4 witness: holder `7` owns 5 tokens. -/
def c4IpnftState : IpnftState :=
  { ipnft := { symbol := some "FOO", current_owner := some 9, former_owner := none,
               minted := true, burnt := false }
    project := none
    token := some c4TokenProjection }

/-- Concrete state map for the C4 witness. -/
def c4StateMap : AMap IpnftUid IpnftState := [(⟨1, 1⟩, c4IpnftState)]

/-- Concrete event for the C4 witness: holder `7` burns 3 of its 5 tokens. -/
def c4Event : IptEventTransfer :=
  { token_address := 100, fromAddr := 7, toAddr := ZERO_ADDRESS, value := 3 }

/-- C4 witness: the theorem applied at a concrete state and event. -/
theorem c4_token_debit_exact_or_fatal_witness :
    ((c4Event.value ≤ (alookup c4TokenProjection.holder_balances c4Event.fromAddr).getD 0 →
      ∃ tp₁ part₁,
        token_debit_leg ⟨1, 1⟩ c4TokenProjection [] c4Event = .ok (tp₁, part₁)
        ∧ alookup tp₁.holder_balances c4Event.fromAddr
            = some ((alookup c4TokenProjection.holder_balances c4Event.fromAddr).getD 0
                      - c4Event.value)
        ∧ ((alookup c4TokenProjection.holder_balances c4Event.fromAddr).getD 0 - c4Event.value)
            + c4Event.value
            = (alookup c4TokenProjection.holder_balances c4Event.fromAddr).getD 0)
    ∧ ((alookup c4TokenProjection.holder_balances c4Event.fromAddr).getD 0 < c4Event.value →
      process_token_transfer_events c3Mapping c4StateMap [c4Event]
        = .error "balance underflow")) :=
  c4_token_debit_exact_or_fatal c3Mapping c4StateMap ⟨1, 1⟩
    c4IpnftState c4TokenProjection [] c4Event rfl rfl rfl (by decide)

/-! ## Reconciler helpers: classification sanity filter (claim C6) -/

/-- `account_access_sanity_checks` (`app.rs`, lines 1650-1662):

```rust
for owner in current_owners {
    holders.remove(owner);
    revoke_access_accounts.remove(owner);
}
for holder in holders.iter() {
    revoke_access_accounts.remove(holder);
}
```

`current_owners` is taken by shared reference and never modified; the
function returns the updated `(holders, revoke_access_accounts)` pair. -/
def account_access_sanity_checks (current_owners holders revoke_access_accounts : List Address) :
    List Address × List Address :=
  let pair := current_owners.foldl
    (fun (p : List Address × List Address) owner => (sremove p.1 owner, sremove p.2 owner))
    (holders, revoke_access_accounts)
  (pair.1, pair.1.foldl (fun racc holder => sremove racc holder) pair.2)

theorem foldl_sremove_mem (xs : List A) (s : List A) (a : A) :
    a ∈ xs.foldl (fun acc x => sremove acc x) s ↔ a ∈ s ∧ a ∉ xs := by
  induction xs generalizing s with
  | nil => simp
  | cons x rest ih =>
    simp only [List.foldl_cons, ih, mem_sremove, List.mem_cons]
    tauto

theorem foldl_pair_sremove (owners : List A) (h r : List A) :
    owners.foldl (fun (p : List A × List A) o => (sremove p.1 o, sremove p.2 o)) (h, r)
      = (owners.foldl (fun acc x => sremove acc x) h,
         owners.foldl (fun acc x => sremove acc x) r) := by
  induction owners generalizing h r with
  | nil => rfl
  | cons o rest ih => simp [List.foldl_cons, ih]

/-- C6: after the sanity filter, current owners are in neither returned set,
remaining holders are not in the revoke set, and the two returned sets are
exactly `holders ∖ current_owners` and
`revoke ∖ current_owners ∖ (holders ∖ current_owners)` (the filter only
removes; `current_owners` itself is untouched, being taken by shared
reference). -/
theorem c6_sanity_filter_disjointness (current_owners holders revoke_access_accounts : List Address) :
    (∀ a ∈ current_owners,
        a ∉ (account_access_sanity_checks current_owners holders revoke_access_accounts).1
        ∧ a ∉ (account_access_sanity_checks current_owners holders revoke_access_accounts).2)
    ∧ (∀ a ∈ (account_access_sanity_checks current_owners holders revoke_access_accounts).1,
        a ∉ (account_access_sanity_checks current_owners holders revoke_access_accounts).2)
    ∧ (∀ a, a ∈ (account_access_sanity_checks current_owners holders revoke_access_accounts).1
        ↔ a ∈ holders ∧ a ∉ current_owners)
    ∧ (∀ a, a ∈ (account_access_sanity_checks current_owners holders revoke_access_accounts).2
        ↔ a ∈ revoke_access_accounts ∧ a ∉ current_owners
            ∧ a ∉ (account_access_sanity_checks current_owners holders revoke_access_accounts).1) := by
  have hchar :
      account_access_sanity_checks current_owners holders revoke_access_accounts
        = (current_owners.foldl (fun acc x => sremove acc x) holders,
           (current_owners.foldl (fun acc x => sremove acc x) holders).foldl
             (fun acc x => sremove acc x)
             (current_owners.foldl (fun acc x => sremove acc x) revoke_access_accounts)) := by
    simp [account_access_sanity_checks, foldl_pair_sremove]
  rw [hchar]
  simp only [foldl_sremove_mem]
  refine ⟨?_, ?_, ?_, ?_⟩ <;> intro a <;> tauto

/-- C6 witness: the filter evaluated on the concrete classification sets
`current_owners = [1]`, `holders = [1, 2]`, `revoke = [1, 2, 3]`. -/
theorem c6_sanity_filter_disjointness_witness :
    (∀ a ∈ ([1] : List Address),
        a ∉ (account_access_sanity_checks [1] [1, 2] [1, 2, 3]).1
        ∧ a ∉ (account_access_sanity_checks [1] [1, 2] [1, 2, 3]).2)
    ∧ (∀ a ∈ (account_access_sanity_checks [1] [1, 2] [1, 2, 3]).1,
        a ∉ (account_access_sanity_checks [1] [1, 2] [1, 2, 3]).2)
    ∧ (∀ a, a ∈ (account_access_sanity_checks [1] [1, 2] [1, 2, 3]).1
        ↔ a ∈ ([1, 2] : List Address) ∧ a ∉ ([1] : List Address))
    ∧ (∀ a, a ∈ (account_access_sanity_checks [1] [1, 2] [1, 2, 3]).2
        ↔ a ∈ ([1, 2, 3] : List Address) ∧ a ∉ ([1] : List Address)
            ∧ a ∉ (account_access_sanity_checks [1] [1, 2] [1, 2, 3]).1) :=
  c6_sanity_filter_disjointness [1] [1, 2] [1, 2, 3]

/-! ## Reconciler helpers: dataset partitioning and operation building (claim C7) -/

/-- `DatasetAccessRole` (`kamu_node_api_client.rs`). -/
inductive DatasetAccessRole where
  | Reader
  | Maintainer
deriving DecidableEq, Repr

/-- `DatasetRoleOperation` (`kamu_node_api_client.rs`). -/
inductive DatasetRoleOperation where
  | Set (role : DatasetAccessRole)
  | Unset
deriving DecidableEq, Repr

/-- `DidPhk` (`did_phk.rs`).  In the Rust code operations carry
`did.to_string() = "did:pkh:{caip2}:{checksummed address}"`; since the EIP-55
rendering of an address is injective, the operation's account id is kept in
this structured form. -/
structure DidPhk where
  caip2 : String
  address : Address
deriving DecidableEq, Repr

/-- `AccountDatasetRelationOperation` (`kamu_node_api_client.rs`). -/
structure AccountDatasetRelationOperation where
  account_id : DidPhk
  operation : DatasetRoleOperation
  dataset_id : DatasetID
deriving DecidableEq, Repr

/-- `AccountDatasetRelationOperation::reader_access`. -/
def AccountDatasetRelationOperation.reader_access (account_id : DidPhk) (dataset_id : DatasetID) :
    AccountDatasetRelationOperation :=
  ⟨account_id, .Set .Reader, dataset_id⟩

/-- `AccountDatasetRelationOperation::maintainer_access`. -/
def AccountDatasetRelationOperation.maintainer_access (account_id : DidPhk) (dataset_id : DatasetID) :
    AccountDatasetRelationOperation :=
  ⟨account_id, .Set .Maintainer, dataset_id⟩

/-- `AccountDatasetRelationOperation::revoke_access`. -/
def AccountDatasetRelationOperation.revoke_access (account_id : DidPhk) (dataset_id : DatasetID) :
    AccountDatasetRelationOperation :=
  ⟨account_id, .Unset, dataset_id⟩

/-- `ProjectDatasetIds` (`app.rs`, lines 1543-1549). -/
structure ProjectDatasetIds where
  core_file_dataset_ids : List DatasetID := []
  owner_file_dataset_ids : List DatasetID := []
  holder_file_dataset_ids : List DatasetID := []
  removed_file_dataset_ids : List DatasetID := []

/-- `partition_dataset_id_by_molecule_access_level` (`app.rs`, lines
1664-1680): pushes the dataset id into the holder-file or owner-file list
according to its access level. -/
def partition_dataset_id_by_molecule_access_level (dataset_id : DatasetID)
    (molecule_access_level : MoleculeAccessLevel)
    (owner_file_dataset_ids holder_file_dataset_ids : List DatasetID) :
    List DatasetID × List DatasetID :=
  match molecule_access_level with
  | .Public | .Holder => (owner_file_dataset_ids, holder_file_dataset_ids ++ [dataset_id])
  | .Admin | .Admin2 => (owner_file_dataset_ids ++ [dataset_id], holder_file_dataset_ids)

/-- `get_project_dataset_ids` (`app.rs`, lines 1682-1707). -/
def get_project_dataset_ids (project : ProjectProjection) : ProjectDatasetIds :=
  let pair := project.actual_files_map.foldl
    (fun (p : List DatasetID × List DatasetID) kv =>
      partition_dataset_id_by_molecule_access_level kv.1 kv.2.molecule_access_level p.1 p.2)
    ([], [])
  { core_file_dataset_ids :=
      [project.entry.data_room_dataset_id, project.entry.announcements_dataset_id]
    owner_file_dataset_ids := pair.1
    holder_file_dataset_ids := pair.2
    removed_file_dataset_ids := akeys project.removed_files_map }

/-- `build_operations` (`app.rs`, lines 1709-1812): four sequential loops —
core datasets (owners=maintainer, holders=reader, revoke=unset), owner files
(owners=maintainer, holders=unset, revoke=unset), holder files
(owners=maintainer, holders=reader, revoke=unset), removed files
(everybody=unset). -/
def build_operations (ids : ProjectDatasetIds)
    (current_owners_did_pkhs holders_did_pkhs revoke_access_accounts_did_pkh : List DidPhk) :
    List AccountDatasetRelationOperation :=
  (ids.core_file_dataset_ids.flatMap (fun ds =>
      current_owners_did_pkhs.map (fun o => AccountDatasetRelationOperation.maintainer_access o ds)
      ++ holders_did_pkhs.map (fun h => AccountDatasetRelationOperation.reader_access h ds)
      ++ revoke_access_accounts_did_pkh.map
          (fun r => AccountDatasetRelationOperation.revoke_access r ds)))
  ++ (ids.owner_file_dataset_ids.flatMap (fun ds =>
      current_owners_did_pkhs.map (fun o => AccountDatasetRelationOperation.maintainer_access o ds)
      ++ holders_did_pkhs.map (fun h => AccountDatasetRelationOperation.revoke_access h ds)
      ++ revoke_access_accounts_did_pkh.map
          (fun r => AccountDatasetRelationOperation.revoke_access r ds)))
  ++ (ids.holder_file_dataset_ids.flatMap (fun ds =>
      current_owners_did_pkhs.map (fun o => AccountDatasetRelationOperation.maintainer_access o ds)
      ++ holders_did_pkhs.map (fun h => AccountDatasetRelationOperation.reader_access h ds)
      ++ revoke_access_accounts_did_pkh.map
          (fun r => AccountDatasetRelationOperation.revoke_access r ds)))
  ++ (ids.removed_file_dataset_ids.flatMap (fun ds =>
      current_owners_did_pkhs.map (fun o => AccountDatasetRelationOperation.revoke_access o ds)
      ++ holders_did_pkhs.map (fun h => AccountDatasetRelationOperation.revoke_access h ds)
      ++ revoke_access_accounts_did_pkh.map
          (fun r => AccountDatasetRelationOperation.revoke_access r ds)))

theorem acontains_iff_mem_akeys (m : AMap K V) (k : K) :
    acontains m k = true ↔ k ∈ akeys m := by
  induction m with
  | nil => simp [acontains, alookup, akeys]
  | cons kv rest ih =>
    cases kv with
    | mk k₁ v₁ =>
      by_cases h : k₁ = k
      · simp [acontains, alookup, akeys, h]
      · simp only [acontains, alookup, akeys, List.map_cons, List.mem_cons, h, if_false]
        constructor
        · intro hs
          exact Or.inr (ih.mp hs)
        · rintro (rfl | hs)
          · exact absurd rfl h
          · exact ih.mpr hs

theorem partition_fold_subset
    (files : AMap DatasetID VersionedFileEntryWithMoleculeAccessLevel)
    (o h : List DatasetID) (d : DatasetID)
    (hd : d ∈ (files.foldl
        (fun (p : List DatasetID × List DatasetID) kv =>
          partition_dataset_id_by_molecule_access_level kv.1 kv.2.molecule_access_level p.1 p.2)
        (o, h)).1
      ∨ d ∈ (files.foldl
        (fun (p : List DatasetID × List DatasetID) kv =>
          partition_dataset_id_by_molecule_access_level kv.1 kv.2.molecule_access_level p.1 p.2)
        (o, h)).2) :
    d ∈ o ∨ d ∈ h ∨ d ∈ akeys files := by
  induction files generalizing o h with
  | nil => simpa [akeys] using hd
  | cons kv rest ih =>
    simp only [List.foldl_cons] at hd
    cases kv with
    | mk ds entry =>
      cases hlevel : entry.molecule_access_level <;>
        simp only [partition_dataset_id_by_molecule_access_level, hlevel] at hd <;>
        rcases ih _ _ hd with h₁ | h₁ | h₁ <;>
        simp only [List.mem_append, List.mem_singleton, akeys, List.map_cons,
          List.mem_cons] at h₁ ⊢ <;>
        tauto

theorem build_operations_mem_cases (ids : ProjectDatasetIds)
    (owners holders revoke : List DidPhk) (op : AccountDatasetRelationOperation)
    (hop : op ∈ build_operations ids owners holders revoke) :
    op.dataset_id ∈ ids.core_file_dataset_ids
    ∨ op.dataset_id ∈ ids.owner_file_dataset_ids
    ∨ op.dataset_id ∈ ids.holder_file_dataset_ids
    ∨ (op.dataset_id ∈ ids.removed_file_dataset_ids ∧ op.operation = .Unset) := by
  simp only [build_operations, List.mem_append, List.mem_flatMap, List.mem_map] at hop
  rcases hop with (((⟨ds, hds, h⟩ | ⟨ds, hds, h⟩) | ⟨ds, hds, h⟩) | ⟨ds, hds, h⟩) <;>
    rcases h with ((⟨a, ha, rfl⟩ | ⟨a, ha, rfl⟩) | ⟨a, ha, rfl⟩) <;>
    simp_all [AccountDatasetRelationOperation.maintainer_access,
      AccountDatasetRelationOperation.reader_access,
      AccountDatasetRelationOperation.revoke_access]

theorem build_operations_removed_mem (ids : ProjectDatasetIds)
    (owners holders revoke : List DidPhk) (d : DatasetID)
    (hd : d ∈ ids.removed_file_dataset_ids) (acc : DidPhk)
    (hacc : acc ∈ owners ++ holders ++ revoke) :
    AccountDatasetRelationOperation.revoke_access acc d
      ∈ build_operations ids owners holders revoke := by
  simp only [build_operations, List.mem_append, List.mem_flatMap, List.mem_map]
  refine Or.inr ⟨d, hd, ?_⟩
  simp only [List.mem_append] at hacc
  rcases hacc with (h | h) | h
  · exact Or.inl (Or.inl ⟨acc, h, rfl⟩)
  · exact Or.inl (Or.inr ⟨acc, h, rfl⟩)
  · exact Or.inr ⟨acc, h, rfl⟩

/-- C7 counterexample input: due to the inverted `retain` of the Catalogue
Syncer (see C1/C2) a dataset `d` can sit in `actual_files_map` and
`removed_files_map` simultaneously. -/
def c7OverlapProject : ProjectProjection :=
  { entry := sampleProjectEntry
    latest_data_room_offset := 0
    actual_files_map := [("d", ⟨⟨1, "f.txt"⟩, .Holder⟩)]
    removed_files_map := [("d", ⟨1, "f.txt"⟩)] }

/-- A holder DID used by the C7 counterexample. -/
def c7HolderDid : DidPhk := ⟨"eip155:1", 2⟩

/-- C7 counterexample: with dataset `d` in both maps (a state the Catalogue
Syncer actually produces, see C1/C2), `build_operations` emits a non-`Unset`
operation (`Set(Reader)` from the holder-files partition) for `d`, although
`d` is in `removed_files_map` — so "every operation emitted for d is Unset"
fails as stated. -/
theorem c7_counterexample_overlap :
    ((build_operations (get_project_dataset_ids c7OverlapProject) [] [c7HolderDid] []).any
      (fun op => decide (op.dataset_id = "d") && decide (op.operation ≠ .Unset))) = true := rfl

/-- C7 (amended): for every dataset `d` of `removed_files_map` that is not
also in `actual_files_map` and is not one of the two core datasets, every
operation `build_operations` emits for `d` is `Unset`, and `d` does receive
an `Unset` operation for every account of all three groups. -/
theorem c7_removed_files_ops_all_unset (project : ProjectProjection)
    (owners holders revoke : List DidPhk) (d : DatasetID)
    (hrem : acontains project.removed_files_map d = true)
    (hact : acontains project.actual_files_map d = false)
    (hdr : d ≠ project.entry.data_room_dataset_id)
    (hann : d ≠ project.entry.announcements_dataset_id) :
    (∀ op ∈ build_operations (get_project_dataset_ids project) owners holders revoke,
        op.dataset_id = d → op.operation = .Unset)
    ∧ (∀ acc ∈ owners ++ holders ++ revoke,
        AccountDatasetRelationOperation.revoke_access acc d
          ∈ build_operations (get_project_dataset_ids project) owners holders revoke) := by
  constructor
  · intro op hop hopd
    rcases build_operations_mem_cases _ owners holders revoke op hop with h | h | h | h
    · rw [hopd] at h
      simp only [get_project_dataset_ids, List.mem_cons, List.mem_singleton] at h
      rcases h with h | h | h
      · exact absurd h hdr
      · exact absurd h hann
      · exact absurd h (List.not_mem_nil d)
    · rw [hopd] at h
      have := partition_fold_subset project.actual_files_map [] [] d (Or.inl h)
      rcases this with hc | hc | hc
      · exact absurd hc (List.not_mem_nil d)
      · exact absurd hc (List.not_mem_nil d)
      · rw [← acontains_iff_mem_akeys] at hc
        rw [hact] at hc
        exact absurd hc (by simp)
    · rw [hopd] at h
      have := partition_fold_subset project.actual_files_map [] [] d (Or.inr h)
      rcases this with hc | hc | hc
      · exact absurd hc (List.not_mem_nil d)
      · exact absurd hc (List.not_mem_nil d)
      · rw [← acontains_iff_mem_akeys] at hc
        rw [hact] at hc
        exact absurd hc (by simp)
    · exact h.2
  · intro acc hacc
    refine build_operations_removed_mem _ owners holders revoke d ?_ acc hacc
    exact (acontains_iff_mem_akeys _ _).mp hrem

/-- The project used by the C7 witness: file `live` is active, file `gone`
is removed, and the two maps are disjoint. -/
def c7WitnessProject : ProjectProjection :=
  { entry := sampleProjectEntry
    latest_data_room_offset := 0
    actual_files_map := [("live", ⟨⟨1, "l.txt"⟩, .Admin⟩)]
    removed_files_map := [("gone", ⟨2, "g.txt"⟩)] }

/-- C7 witness: the amended theorem applied at a concrete project and
concrete account groups. -/
theorem c7_removed_files_ops_all_unset_witness :
    (∀ op ∈ build_operations (get_project_dataset_ids c7WitnessProject)
        [⟨"eip155:1", 10⟩] [⟨"eip155:1", 11⟩] [⟨"eip155:1", 12⟩],
        op.dataset_id = "gone" → op.operation = .Unset)
    ∧ (∀ acc ∈ ([⟨"eip155:1", 10⟩] ++ [⟨"eip155:1", 11⟩] ++ [⟨"eip155:1", 12⟩] : List DidPhk),
        AccountDatasetRelationOperation.revoke_access acc "gone"
          ∈ build_operations (get_project_dataset_ids c7WitnessProject)
              [⟨"eip155:1", 10⟩] [⟨"eip155:1", 11⟩] [⟨"eip155:1", 12⟩]) :=
  c7_removed_files_ops_all_unset c7WitnessProject
    [⟨"eip155:1", 10⟩] [⟨"eip155:1", 11⟩] [⟨"eip155:1", 12⟩] "gone"
    rfl rfl (by decide) (by decide)

/-! ## Reconciler: account assembly and per-IPNFT reconciliation (claims C5, C10)

`self.get_owners(address, multisig, to_block)` (`app.rs`, lines 1300-1390)
consults the in-memory multisig cache, the external Safe oracle and the chain
logs; it is modelled by an oracle function `get_owners : Address →
GetOwnersResponse`.  The external `create_wallet_accounts` /
`apply_account_dataset_relations` calls only ship data out and are elided. -/

/-- `IPT_ACCESS_THRESHOLD` (`app.rs`, line 29). -/
def IPT_ACCESS_THRESHOLD : U256 := 0

/-- `GetOwnersResponse` (`app.rs`, lines 1531-1535). -/
structure GetOwnersResponse where
  current_owners : List Address
  former_owners : List Address

/-- `CreateAccountsResponse` (`app.rs`, lines 1537-1541). -/
structure CreateAccountsResponse where
  current_owners_did_pkhs : List DidPhk
  holders_did_pkhs : List DidPhk
  revoke_access_accounts_did_pkh : List DidPhk

/-- `DidPhk::get_caip2` (`did_phk.rs`): closed chain-id allowlist. -/
def get_caip2 (chain_id : Nat) : Except String String :=
  match chain_id with
  | 1 => .ok "eip155:1"
  | 11155111 => .ok "eip155:11155111"
  | _ => .error "Unsupported network"

/-- `create_did_phk` (`app.rs`, lines 1392-1394) via `DidPhk::new_from_chain_id`. -/
def create_did_phk (chain_id : Nat) (address : Address) : Except String DidPhk :=
  match get_caip2 chain_id with
  | .error msg => .error msg
  | .ok caip2 => .ok ⟨caip2, address⟩

/-- One account-group loop of `create_did_pkh_accounts`. -/
def create_did_phk_list (chain_id : Nat) : List Address → Except String (List DidPhk)
  | [] => .ok []
  | address :: rest =>
    match create_did_phk chain_id address with
    | .error msg => .error msg
    | .ok did =>
      match create_did_phk_list chain_id rest with
      | .error msg => .error msg
      | .ok dids => .ok (did :: dids)

/-- `create_did_pkh_accounts` (`app.rs`, lines 1396-1425). -/
def create_did_pkh_accounts (chain_id : Nat)
    (current_owners holders revoke_access_accounts : List Address) :
    Except String CreateAccountsResponse :=
  match create_did_phk_list chain_id current_owners with
  | .error msg => .error msg
  | .ok current_owners_did_pkhs =>
    match create_did_phk_list chain_id holders with
    | .error msg => .error msg
    | .ok holders_did_pkhs =>
      match create_did_phk_list chain_id revoke_access_accounts with
      | .error msg => .error msg
      | .ok revoke_access_accounts_did_pkh =>
        .ok ⟨current_owners_did_pkhs, holders_did_pkhs, revoke_access_accounts_did_pkh⟩

/-- `get_accounts_by_ipnft_state` (`app.rs`, lines 1427-1472): classify the
full current account picture of one IPNFT into
`(current_owners, holders, revoke_access_accounts)`. -/
def get_accounts_by_ipnft_state (ipnft_state : IpnftState)
    (get_owners : Address → GetOwnersResponse) :
    List Address × List Address × List Address :=
  let co_pair :=
    match ipnft_state.ipnft.current_owner with
    | some current_owner =>
      let r := get_owners current_owner
      (sextend [] r.current_owners, sextend [] r.former_owners)
    | none => (([] : List Address), ([] : List Address))
  let current_owners := co_pair.1
  let revoke₁ :=
    match ipnft_state.ipnft.former_owner with
    | some former_owner =>
      let r := get_owners former_owner
      sextend (sextend co_pair.2 r.current_owners) r.former_owners
    | none => co_pair.2
  let hb_pair :=
    match ipnft_state.token with
    | some token =>
      token.holder_balances.foldl
        (fun (p : List Address × List Address) (hb : Address × U256) =>
          if hb.2 > IPT_ACCESS_THRESHOLD then (sinsert p.1 hb.1, p.2)
          else (p.1, sinsert p.2 hb.1))
        ([], revoke₁)
    | none => ([], revoke₁)
  let sane := account_access_sanity_checks current_owners hb_pair.1 hb_pair.2
  (current_owners, sane.1, sane.2)

/-- `initial_access_applying_for_ipnft` (`app.rs`, lines 1240-1298): during
bootstrap, burnt IPNFTs and project-less IPNFTs are skipped; otherwise the
full account picture is crossed with the project's dataset partitions. -/
def initial_access_applying_for_ipnft (ipnft_state : IpnftState)
    (get_owners : Address → GetOwnersResponse) (chain_id : Nat) :
    Except String (List AccountDatasetRelationOperation) :=
  if ipnft_state.ipnft.burnt then .ok []
  else
    match ipnft_state.project with
    | none => .ok []
    | some project =>
      let accounts := get_accounts_by_ipnft_state ipnft_state get_owners
      match create_did_pkh_accounts chain_id accounts.1 accounts.2.1 accounts.2.2 with
      | .error msg => .error msg
      | .ok dids =>
        .ok (build_operations (get_project_dataset_ids project)
          dids.current_owners_did_pkhs dids.holders_did_pkhs
          dids.revoke_access_accounts_did_pkh)

/-- `OwnerChanges` (`app.rs`, lines 1488-1492). -/
structure OwnerChanges where
  former_owner : Option Address := none
  current_owner : Option Address := none
deriving DecidableEq, Repr

/-- `IpnftDataRoomFileChange` (`app.rs`, lines 1520-1529). -/
inductive IpnftDataRoomFileChange where
  | Added (level : MoleculeAccessLevel)
  | Removed
  | MoleculeAccessLevelChanged (fromLevel toLevel : MoleculeAccessLevel)
deriving DecidableEq, Repr

/-- `ChangedVersionedFile` (`app.rs`, lines 1512-1516). -/
structure ChangedVersionedFile where
  dataset_id : DatasetID
  change : IpnftDataRoomFileChange
deriving DecidableEq, Repr

/-- `IpnftChanges` (`app.rs`, lines 1480-1486); `Default` gives `false` /
`None` / empty collections. -/
structure IpnftChanges where
  minted_and_burnt : Bool := false
  owner_changes : OwnerChanges := {}
  holder_balances_changes : AMap Address U256 := []
  changed_files : List ChangedVersionedFile := []

/-- `IpnftChanges::default()`. -/
def emptyIpnftChanges : IpnftChanges := {}

/-- Step 1 of populating `ipnft_changes_map` (`app.rs`, lines 369-382): fold
one batch IPNFT projection into the map; a mint-and-burn within the batch
sets `minted_and_burnt` and records no owner change. -/
def apply_ipnft_projection_change (m : AMap IpnftUid IpnftChanges) (ipnft_uid : IpnftUid)
    (projection : IpnftEventProjection) : AMap IpnftUid IpnftChanges :=
  let c := (alookup m ipnft_uid).getD emptyIpnftChanges
  if projection.minted && projection.burnt then
    ainsert m ipnft_uid { c with minted_and_burnt := true }
  else
    ainsert m ipnft_uid
      { c with owner_changes :=
          { current_owner := projection.current_owner
            former_owner := projection.former_owner } }

/-- Step 2 (`app.rs`, lines 383-392): attach the per-IPNFT holder-balance
deltas, discarding them when the IPNFT was minted and burnt in this batch. -/
def apply_holder_balances_change (m : AMap IpnftUid IpnftChanges) (ipnft_uid : IpnftUid)
    (holders_balances_changes : AMap Address U256) : AMap IpnftUid IpnftChanges :=
  let c := (alookup m ipnft_uid).getD emptyIpnftChanges
  if c.minted_and_burnt then ainsert m ipnft_uid c
  else ainsert m ipnft_uid { c with holder_balances_changes := holders_balances_changes }

/-- Step 3 (`app.rs`, lines 393-402): a multisig-membership change to an
IPNFT's owner triggers re-evaluation when no owner change is recorded yet. -/
def apply_changed_multisig_owner (m : AMap IpnftUid IpnftChanges) (ipnft_uid : IpnftUid)
    (owner : Address) : AMap IpnftUid IpnftChanges :=
  let c := (alookup m ipnft_uid).getD emptyIpnftChanges
  if c.owner_changes.current_owner.isNone then
    ainsert m ipnft_uid
      { c with owner_changes := { c.owner_changes with current_owner := some owner } }
  else ainsert m ipnft_uid c

/-- "Populate IPNFT blockchain changes" (`app.rs`, lines 366-402). -/
def populate_ipnft_changes_map (projections : List (IpnftUid × IpnftEventProjection))
    (participating_holders_balances : ParticipatingHoldersBalances)
    (changed_ipnft_multisig_owners : List (IpnftUid × Address)) : AMap IpnftUid IpnftChanges :=
  let m₁ := projections.foldl (fun m p => apply_ipnft_projection_change m p.1 p.2) []
  let m₂ := participating_holders_balances.foldl
    (fun m p => apply_holder_balances_change m p.1 p.2) m₁
  changed_ipnft_multisig_owners.foldl (fun m p => apply_changed_multisig_owner m p.1 p.2) m₂

/-- `interval_access_applying_for_ipnft` (`app.rs`, lines 1052-1203). -/
def interval_access_applying_for_ipnft (ipnft_state : IpnftState) (ipnft_change : IpnftChanges)
    (get_owners : Address → GetOwnersResponse) (chain_id : Nat) :
    Except String (List AccountDatasetRelationOperation) :=
  if ipnft_change.minted_and_burnt then .ok []
  else
    match ipnft_state.project with
    | none => .ok []
    | some project =>
      -- 1. Process new blockchain data.
      let co_pair :=
        match ipnft_change.owner_changes.current_owner with
        | some current_owner =>
          let r := get_owners current_owner
          (sextend [] r.current_owners, sextend [] r.former_owners)
        | none => (([] : List Address), ([] : List Address))
      let current_owners := co_pair.1
      let revoke₁ :=
        match ipnft_change.owner_changes.former_owner with
        | some former_owner =>
          let r := get_owners former_owner
          sextend (sextend co_pair.2 r.current_owners) r.former_owners
        | none => co_pair.2
      let hb_pair := ipnft_change.holder_balances_changes.foldl
        (fun (p : List Address × List Address) (hb : Address × U256) =>
          if hb.2 > IPT_ACCESS_THRESHOLD then (sinsert p.1 hb.1, p.2)
          else (p.1, sinsert p.2 hb.1))
        ([], revoke₁)
      let sane := account_access_sanity_checks current_owners hb_pair.1 hb_pair.2
      match create_did_pkh_accounts chain_id current_owners sane.1 sane.2 with
      | .error msg => .error msg
      | .ok dids =>
        let blockchain_based_operations := build_operations (get_project_dataset_ids project)
          dids.current_owners_did_pkhs dids.holders_did_pkhs
          dids.revoke_access_accounts_did_pkh
        -- 2. Process the project's changes.
        if ipnft_change.changed_files.isEmpty then .ok blockchain_based_operations
        else
          let accounts := get_accounts_by_ipnft_state ipnft_state get_owners
          match create_did_pkh_accounts chain_id accounts.1 accounts.2.1 accounts.2.2 with
          | .error msg => .error msg
          | .ok dids₂ =>
            let changed_project_dataset_ids := ipnft_change.changed_files.foldl
              (fun (acc : ProjectDatasetIds) changed_file =>
                match changed_file.change with
                | .Added molecule_access_level =>
                  let p := partition_dataset_id_by_molecule_access_level
                    changed_file.dataset_id molecule_access_level
                    acc.owner_file_dataset_ids acc.holder_file_dataset_ids
                  { acc with owner_file_dataset_ids := p.1, holder_file_dataset_ids := p.2 }
                | .Removed =>
                  { acc with removed_file_dataset_ids :=
                      acc.removed_file_dataset_ids ++ [changed_file.dataset_id] }
                | .MoleculeAccessLevelChanged _ toLevel =>
                  let p := partition_dataset_id_by_molecule_access_level
                    changed_file.dataset_id toLevel
                    acc.owner_file_dataset_ids acc.holder_file_dataset_ids
                  { acc with owner_file_dataset_ids := p.1, holder_file_dataset_ids := p.2 })
              {}
            let project_based_operations := build_operations changed_project_dataset_ids
              dids₂.current_owners_did_pkhs dids₂.holders_did_pkhs
              dids₂.revoke_access_accounts_did_pkh
            .ok (blockchain_based_operations ++ project_based_operations)

/-- C10: during bootstrap, an IPNFT whose projection has `burnt = true` is
skipped before the project or any account is examined: the per-IPNFT initial
access computation returns an empty operation list. -/
theorem c10_bootstrap_skips_burnt_ipnfts (ipnft_state : IpnftState)
    (get_owners : Address → GetOwnersResponse) (chain_id : Nat)
    (h : ipnft_state.ipnft.burnt = true) :
    initial_access_applying_for_ipnft ipnft_state get_owners chain_id = .ok [] := by
  simp [initial_access_applying_for_ipnft, h]

/-- The state used by the C10 witness: a burnt IPNFT that nevertheless has an
attached project and a token with a positive-balance holder. -/
def c10State : IpnftState :=
  { ipnft := { symbol := some "FOO", current_owner := none, former_owner := some 3,
               minted := true, burnt := true }
    project := some c7WitnessProject
    token := some c4TokenProjection }

/-- C10 witness: the burnt short-circuit at a concrete state; the chain id
`999` is outside the DID allowlist, so reaching the account stage would have
produced an error, not `ok []`. -/
theorem c10_bootstrap_skips_burnt_ipnfts_witness :
    initial_access_applying_for_ipnft c10State
      (fun a => { current_owners := [a], former_owners := [] }) 999 = .ok [] :=
  c10_bootstrap_skips_burnt_ipnfts c10State
    (fun a => { current_owners := [a], former_owners := [] }) 999 rfl

theorem foldl_invariant_mem {σ α : Type} (P : σ → Prop) (step : σ → α → σ) (l : List α) (s : σ)
    (h0 : P s) (hstep : ∀ s a, a ∈ l → P s → P (step s a)) : P (l.foldl step s) := by
  induction l generalizing s with
  | nil => exact h0
  | cons a rest ih =>
    exact ih _ (hstep _ _ (List.mem_cons_self a rest) h0)
      (fun s b hb => hstep s b (List.mem_cons_of_mem a hb))

theorem alookup_apply_ipnft_projection_ne (m : AMap IpnftUid IpnftChanges)
    (k uid : IpnftUid) (projection : IpnftEventProjection) (h : k ≠ uid) :
    alookup (apply_ipnft_projection_change m k projection) uid = alookup m uid := by
  have h' : ∀ v : IpnftChanges, alookup (ainsert m k v) uid = alookup m uid :=
    fun v => alookup_ainsert_ne _ _ _ _ (fun hc => h hc.symm)
  unfold apply_ipnft_projection_change
  by_cases hmb : projection.minted && projection.burnt <;> simp [hmb, h']

theorem alookup_apply_holder_balances_ne (m : AMap IpnftUid IpnftChanges)
    (k uid : IpnftUid) (hb : AMap Address U256) (h : k ≠ uid) :
    alookup (apply_holder_balances_change m k hb) uid = alookup m uid := by
  have h' : ∀ v : IpnftChanges, alookup (ainsert m k v) uid = alookup m uid :=
    fun v => alookup_ainsert_ne _ _ _ _ (fun hc => h hc.symm)
  unfold apply_holder_balances_change
  by_cases hmb : ((alookup m k).getD emptyIpnftChanges).minted_and_burnt = true <;>
    simp [hmb, h']

theorem alookup_apply_changed_multisig_ne (m : AMap IpnftUid IpnftChanges)
    (k uid : IpnftUid) (owner : Address) (h : k ≠ uid) :
    alookup (apply_changed_multisig_owner m k owner) uid = alookup m uid := by
  have h' : ∀ v : IpnftChanges, alookup (ainsert m k v) uid = alookup m uid :=
    fun v => alookup_ainsert_ne _ _ _ _ (fun hc => h hc.symm)
  unfold apply_changed_multisig_owner
  by_cases hcur : ((alookup m k).getD emptyIpnftChanges).owner_changes.current_owner.isNone = true <;>
    simp [hcur, h']

/-- The lookup invariant threaded through the three population folds:
the uid already carries a `minted_and_burnt` entry with no holder deltas. -/
def MintedBurntEntry (uid : IpnftUid) (m : AMap IpnftUid IpnftChanges) : Prop :=
  ∃ c, alookup m uid = some c ∧ c.minted_and_burnt = true ∧ c.holder_balances_changes = []

theorem populate_step1_lookup (uid : IpnftUid) (projection : IpnftEventProjection)
    (hminted : projection.minted = true) (hburnt : projection.burnt = true) :
    ∀ (projections : List (IpnftUid × IpnftEventProjection)) (m : AMap IpnftUid IpnftChanges),
      (uid, projection) ∈ projections → (projections.map Prod.fst).Nodup →
      alookup m uid = none →
      MintedBurntEntry uid
        (projections.foldl (fun m p => apply_ipnft_projection_change m p.1 p.2) m) := by
  intro projections
  induction projections with
  | nil => intro m hmem _ _; exact absurd hmem (List.not_mem_nil _)
  | cons p rest ih =>
    intro m hmem hnodup hm
    obtain ⟨k, q⟩ := p
    rw [List.map_cons] at hnodup
    have hnodup' := List.nodup_cons.mp hnodup
    simp only [List.foldl_cons]
    rcases List.mem_cons.mp hmem with heq | hmem'
    · have hk : uid = k := congrArg Prod.fst heq
      have hq : projection = q := congrArg Prod.snd heq
      subst hk; subst hq
      have hfirst : alookup (apply_ipnft_projection_change m uid projection) uid
          = some { emptyIpnftChanges with minted_and_burnt := true } := by
        unfold apply_ipnft_projection_change
        rw [hm]
        simp [hminted, hburnt, Option.getD]
      refine foldl_invariant_mem (MintedBurntEntry uid) _ rest _
        ⟨{ emptyIpnftChanges with minted_and_burnt := true }, hfirst, rfl, rfl⟩ ?_
      intro s a ha hP
      obtain ⟨c, hc, hflag, hhb⟩ := hP
      have hka : a.1 ≠ uid := by
        intro hcontr
        apply hnodup'.1
        rw [← hcontr]
        exact List.mem_map.mpr ⟨a, ha, rfl⟩
      exact ⟨c, by rw [alookup_apply_ipnft_projection_ne _ _ _ _ hka]; exact hc, hflag, hhb⟩
    · have huid_keys : uid ∈ rest.map Prod.fst := by
        simpa using List.mem_map_of_mem Prod.fst hmem'
      have hk : k ≠ uid := fun hc => hnodup'.1 (hc ▸ huid_keys)
      refine ih _ hmem' hnodup'.2 ?_
      rw [alookup_apply_ipnft_projection_ne _ _ _ _ hk]
      exact hm

theorem populate_step2_preserves (uid : IpnftUid)
    (participating : ParticipatingHoldersBalances) (m : AMap IpnftUid IpnftChanges)
    (hP : MintedBurntEntry uid m) :
    MintedBurntEntry uid
      (participating.foldl (fun m p => apply_holder_balances_change m p.1 p.2) m) := by
  refine foldl_invariant_mem (MintedBurntEntry uid) _ participating m hP ?_
  intro s a _ hPs
  obtain ⟨c, hc, hflag, hhb⟩ := hPs
  by_cases hka : a.1 = uid
  · subst hka
    refine ⟨c, ?_, hflag, hhb⟩
    unfold apply_holder_balances_change
    rw [hc]
    simp [Option.getD, hflag]
  · exact ⟨c, by rw [alookup_apply_holder_balances_ne _ _ _ _ hka]; exact hc, hflag, hhb⟩

theorem populate_step3_preserves (uid : IpnftUid)
    (changed_ipnft_multisig_owners : List (IpnftUid × Address)) (m : AMap IpnftUid IpnftChanges)
    (hP : MintedBurntEntry uid m) :
    MintedBurntEntry uid
      (changed_ipnft_multisig_owners.foldl
        (fun m p => apply_changed_multisig_owner m p.1 p.2) m) := by
  refine foldl_invariant_mem (MintedBurntEntry uid) _ changed_ipnft_multisig_owners m hP ?_
  intro s a _ hPs
  obtain ⟨c, hc, hflag, hhb⟩ := hPs
  by_cases hka : a.1 = uid
  · subst hka
    unfold apply_changed_multisig_owner
    rw [hc]
    by_cases hcur : c.owner_changes.current_owner.isNone
    · exact ⟨{ c with owner_changes := { c.owner_changes with current_owner := some a.2 } },
        by simp [Option.getD, hcur], hflag, hhb⟩
    · exact ⟨c, by simp [Option.getD, hcur], hflag, hhb⟩
  · exact ⟨c, by rw [alookup_apply_changed_multisig_ne _ _ _ _ hka]; exact hc, hflag, hhb⟩

/-- C5: an IPNFT whose batch projection was both minted and burnt gets an
`IpnftChanges` entry with `minted_and_burnt = true`, its per-iteration
holder-balance deltas are discarded (the delta map stays empty no matter what
`participating_holders_balances` contains), and the per-IPNFT reconciliation
emits no operation for it. -/
theorem c5_minted_and_burnt_emits_nothing
    (projections : List (IpnftUid × IpnftEventProjection))
    (participating : ParticipatingHoldersBalances)
    (changed_ipnft_multisig_owners : List (IpnftUid × Address))
    (uid : IpnftUid) (projection : IpnftEventProjection)
    (ipnft_state : IpnftState) (get_owners : Address → GetOwnersResponse) (chain_id : Nat)
    (hmem : (uid, projection) ∈ projections)
    (hnodup : (projections.map Prod.fst).Nodup)
    (hminted : projection.minted = true) (hburnt : projection.burnt = true) :
    ∃ c, alookup (populate_ipnft_changes_map projections participating
          changed_ipnft_multisig_owners) uid = some c
      ∧ c.minted_and_burnt = true
      ∧ c.holder_balances_changes = []
      ∧ interval_access_applying_for_ipnft ipnft_state c get_owners chain_id = .ok [] := by
  have h1 := populate_step1_lookup uid projection hminted hburnt projections [] hmem hnodup rfl
  have h2 := populate_step2_preserves uid participating _ h1
  have h3 := populate_step3_preserves uid changed_ipnft_multisig_owners _ h2
  obtain ⟨c, hc, hflag, hhb⟩ := h3
  refine ⟨c, hc, hflag, hhb, ?_⟩
  simp [interval_access_applying_for_ipnft, hflag]

/-- The batch projection used by the C5 witness: minted and burnt in one batch. -/
def c5Projection : IpnftEventProjection :=
  { symbol := some "FOO", current_owner := none, former_owner := some 4,
    minted := true, burnt := true }

/-- C5 witness: the theorem applied at concrete inputs — the batch projects
IPNFT `⟨1, 1⟩` as minted-and-burnt while the transfer projector reports a
holder delta and a multisig change also touches it. -/
theorem c5_minted_and_burnt_emits_nothing_witness :
    ∃ c, alookup (populate_ipnft_changes_map [(⟨1, 1⟩, c5Projection)]
          [(⟨1, 1⟩, [(5, 7)])] [(⟨1, 1⟩, 9)]) ⟨1, 1⟩ = some c
      ∧ c.minted_and_burnt = true
      ∧ c.holder_balances_changes = []
      ∧ interval_access_applying_for_ipnft c10State c
          (fun a => { current_owners := [a], former_owners := [] }) 1 = .ok [] :=
  c5_minted_and_burnt_emits_nothing [(⟨1, 1⟩, c5Projection)] [(⟨1, 1⟩, [(5, 7)])]
    [(⟨1, 1⟩, 9)] ⟨1, 1⟩ c5Projection c10State
    (fun a => { current_owners := [a], former_owners := [] }) 1
    (List.mem_singleton.mpr rfl) (by simp) rfl rfl

/-! ## Log Fetcher: adaptive binary splitting (claim C8)

`binary_get_logs` (`provider_ext.rs`, lines 97-175).  The RPC call (after
`with_retry`) is modelled by a deterministic oracle classifying each
requested range as delivered, rejected as too large
(`is_too_many_events_error`), or failed otherwise; the chunks delivered to
the callback are returned as the list of their `[from, to]` ranges in
callback order.  Termination of the recursion is established by the
well-founded measure `to_block - from_block`. -/

/-- Outcome of one ranged `get_logs` attempt. -/
inductive QueryOutcome where
  | success
  | tooLarge
  | failure
deriving DecidableEq, Repr

/-- `middle_block` (`provider_ext.rs`, lines 253-257). -/
def middle_block (from_block to_block : Nat) : Nat :=
  from_block + (to_block - from_block) / 2

/-- `MIN_BLOCK_RANGE` (`provider_ext.rs`, line 112). -/
def MIN_BLOCK_RANGE : Nat := 1

/-- `binary_get_logs`: query the full range; on a too-large rejection of a
range of more than one block, split at `middle_block` and recurse on
`[from, mid]` then `[mid + 1, to]`; a rejected single-block range is a
non-recoverable error. -/
def binary_get_logs (query : Nat → Nat → QueryOutcome) (from_block to_block : Nat) :
    Except String (List (Nat × Nat)) :=
  match query from_block to_block with
  | .success => .ok [(from_block, to_block)]
  | .failure => .error "unexpected error"
  | .tooLarge =>
    if _h : to_block - from_block + 1 ≤ MIN_BLOCK_RANGE then
      .error "Cannot split block range further"
    else
      match binary_get_logs query from_block (middle_block from_block to_block) with
      | .error msg => .error msg
      | .ok first_half =>
        match binary_get_logs query (middle_block from_block to_block + 1) to_block with
        | .error msg => .error msg
        | .ok second_half => .ok (first_half ++ second_half)
termination_by to_block - from_block
decreasing_by
  · simp only [middle_block, MIN_BLOCK_RANGE] at *
    omega
  · simp only [middle_block, MIN_BLOCK_RANGE] at *
    omega

/-- `coversB chunks f t` decides that `chunks` is a gap-free, duplicate-free,
in-order partition of the block interval `[f, t]` (with `[f, t]` empty when
`f = t + 1`). -/
def coversB : List (Nat × Nat) → Nat → Nat → Bool
  | [], f, t => decide (f = t + 1)
  | (a, b) :: rest, f, t =>
    decide (a = f) && decide (a ≤ b) && decide (b ≤ t) && coversB rest (b + 1) t

theorem coversB_append (l₁ l₂ : List (Nat × Nat)) (f m t : Nat)
    (h₁ : coversB l₁ f m = true) (h₂ : coversB l₂ (m + 1) t = true) (hmt : m ≤ t) :
    coversB (l₁ ++ l₂) f t = true := by
  induction l₁ generalizing f with
  | nil =>
    simp only [coversB, decide_eq_true_eq] at h₁
    subst h₁
    simpa using h₂
  | cons p rest ih =>
    obtain ⟨a, b⟩ := p
    simp only [coversB, Bool.and_eq_true, decide_eq_true_eq] at h₁
    obtain ⟨⟨⟨haf, hab⟩, hbm⟩, hrest⟩ := h₁
    simp only [List.cons_append, coversB, Bool.and_eq_true, decide_eq_true_eq]
    exact ⟨⟨⟨haf, hab⟩, Nat.le_trans hbm hmt⟩, ih _ hrest⟩

theorem binary_get_logs_covers_aux (query : Nat → Nat → QueryOutcome) (gas : Nat) :
    ∀ from_block to_block, to_block - from_block ≤ gas → from_block ≤ to_block →
    ∀ chunks, binary_get_logs query from_block to_block = .ok chunks →
    coversB chunks from_block to_block = true := by
  induction gas with
  | zero =>
    intro f t hgas hft chunks hok
    have heq : t = f := by omega
    subst heq
    rw [binary_get_logs] at hok
    cases hq : query t t <;> rw [hq] at hok <;> dsimp only at hok
    · simp only [Except.ok.injEq] at hok
      subst hok
      simp [coversB]
    · rw [dif_pos (by simp [MIN_BLOCK_RANGE])] at hok
      exact absurd hok (by simp)
    · exact absurd hok (by simp)
  | succ g ih =>
    intro f t hgas hft chunks hok
    rw [binary_get_logs] at hok
    cases hq : query f t <;> rw [hq] at hok <;> dsimp only at hok
    · simp only [Except.ok.injEq] at hok
      subst hok
      simp [coversB, hft]
    · by_cases hsmall : t - f + 1 ≤ MIN_BLOCK_RANGE
      · rw [dif_pos hsmall] at hok
        exact absurd hok (by simp)
      · rw [dif_neg hsmall] at hok
        simp only [MIN_BLOCK_RANGE] at hsmall
        have hrange : 1 ≤ t - f := by omega
        have hmid₁ : f ≤ middle_block f t := by simp [middle_block]
        have hmid₂ : middle_block f t < t := by simp only [middle_block]; omega
        cases hfst : binary_get_logs query f (middle_block f t) <;> rw [hfst] at hok <;>
            dsimp only at hok
        · exact absurd hok (by simp)
        · cases hsnd : binary_get_logs query (middle_block f t + 1) t <;> rw [hsnd] at hok <;>
              dsimp only at hok
          · exact absurd hok (by simp)
          · simp only [Except.ok.injEq] at hok
            subst hok
            have hcov₁ := ih f (middle_block f t)
              (by simp only [middle_block]; omega) hmid₁ _ hfst
            have hcov₂ := ih (middle_block f t + 1) t
              (by simp only [middle_block]; omega) (by omega) _ hsnd
            exact coversB_append _ _ f (middle_block f t) t hcov₁ hcov₂ (Nat.le_of_lt hmid₂)
    · exact absurd hok (by simp)

/-- C8: for every `from ≤ to`, (a) whenever the adaptive splitting succeeds,
the ranges actually delivered form a disjoint, gap-free, in-order partition
of `[from, to]` (the split point being `mid = from + (to - from) / 2` by
definition of `middle_block`, recursing on `[from, mid]` then
`[mid + 1, to]`); (b) a single-block range that is still rejected makes the
fetch fail with a non-recoverable error.  Termination is witnessed by
`binary_get_logs` being a total function. -/
theorem c8_binary_get_logs_partition (query : Nat → Nat → QueryOutcome)
    (from_block to_block : Nat) (h : from_block ≤ to_block) :
    (∀ chunks, binary_get_logs query from_block to_block = .ok chunks →
        coversB chunks from_block to_block = true)
    ∧ (from_block = to_block → query from_block to_block = .tooLarge →
        binary_get_logs query from_block to_block
          = .error "Cannot split block range further") := by
  constructor
  · intro chunks hok
    exact binary_get_logs_covers_aux query (to_block - from_block) from_block to_block
      (Nat.le_refl _) h chunks hok
  · intro heq hq
    subst heq
    rw [binary_get_logs, hq, dif_pos (by simp [MIN_BLOCK_RANGE])]

/-- The oracle used by the C8 witness: ranges of three or more blocks are
rejected as too large, smaller ones succeed. -/
def c8Query : Nat → Nat → QueryOutcome :=
  fun from_block to_block => if to_block - from_block ≥ 2 then .tooLarge else .success

/-- The always-rejecting oracle used by the C8 witness's single-block part. -/
def c8RejectingQuery : Nat → Nat → QueryOutcome := fun _ _ => .tooLarge

/-- C8 witness: on `[0, 4]` the splitting delivers exactly the partition
`[0,1], [2,2], [3,4]` (split at `mid = 2`, then at `mid = 1`), `coversB`
certifies it via the theorem, and a rejected single-block range `[3, 3]`
fails with the non-recoverable error. -/
theorem c8_binary_get_logs_partition_witness :
    binary_get_logs c8Query 0 4 = .ok [(0, 1), (2, 2), (3, 4)]
    ∧ coversB [(0, 1), (2, 2), (3, 4)] 0 4 = true
    ∧ binary_get_logs c8RejectingQuery 3 3 = .error "Cannot split block range further" := by
  have hrun : binary_get_logs c8Query 0 4 = .ok [(0, 1), (2, 2), (3, 4)] := by
    rw [binary_get_logs]
    norm_num [c8Query, MIN_BLOCK_RANGE, middle_block]
    rw [binary_get_logs]
    norm_num [c8Query, MIN_BLOCK_RANGE, middle_block]
    rw [binary_get_logs]
    norm_num [c8Query]
    rw [binary_get_logs]
    norm_num [c8Query]
    rw [binary_get_logs]
    norm_num [c8Query]
  refine ⟨hrun, ?_, ?_⟩
  · exact (c8_binary_get_logs_partition c8Query 0 4 (by norm_num)).1 _ hrun
  · exact (c8_binary_get_logs_partition c8RejectingQuery 3 3 (Nat.le_refl 3)).2 rfl rfl

/-! ## `IpnftUid` string codec (claim C9)

`Display for IpnftUid` (`ipnft_uid.rs`, lines 14-18) writes
`{address}_{token_id}`, where the address renders as `0x` followed by 40
hexadecimal digits (EIP-55 checksumming only chooses the CASE of the letter
digits) and the token id renders in decimal.  `FromStr` (lines 20-42) splits
on `'_'`, requires exactly two parts, parses the address as hexadecimal
(optional `0x` prefix, case-insensitive, exactly 40 digits) and the token id
per the integer parser (radix selected by a `0x`/`0b`/`0o` prefix, decimal
otherwise, overflow-checked at 256 bits).

Strings are modelled as lists of Unicode codepoints (`Nat`); the checksum
case pattern is an arbitrary boolean mask (`true` = upper case), so the
theorem covers the EIP-55 rendering as one instance of the mask. -/

/- A character is its Unicode codepoint (`Nat`): `48`-`57` are `'0'`-`'9'`,
`65`-`70` are `'A'`-`'F'`, `97`-`102` are `'a'`-`'f'`, `95` is `'_'`,
`120` is `'x'`. -/

/-- Render one hexadecimal digit, upper- or lower-case. -/
def hexDigitChar (upper : Bool) (d : Nat) : Nat :=
  if d < 10 then 48 + d
  else if upper then 55 + d else 87 + d

/-- `char::to_digit(16)`: the case-insensitive hexadecimal digit value. -/
def hexDigitVal (c : Nat) : Option Nat :=
  if 48 ≤ c ∧ c ≤ 57 then some (c - 48)
  else if 97 ≤ c ∧ c ≤ 102 then some (c - 87)
  else if 65 ≤ c ∧ c ≤ 70 then some (c - 55)
  else none

/-- `char::to_digit(base)` for `base ≤ 16`. -/
def baseDigitVal (base : Nat) (c : Nat) : Option Nat :=
  match hexDigitVal c with
  | none => none
  | some d => if d < base then some d else none

/-- The `w` base-16 digits of `n`, most significant first, zero-padded. -/
def natToHexDigits : Nat → Nat → List Nat
  | 0, _ => []
  | w + 1, n => natToHexDigits w (n / 16) ++ [n % 16]

/-- Value of a most-significant-first digit list. -/
def digitsVal (base : Nat) (ds : List Nat) : Nat :=
  ds.foldl (fun acc d => acc * base + d) 0

/-- The decimal digits of `n`, most significant first (`[0]` for zero). -/
def natToDecDigits (n : Nat) : List Nat :=
  if _h : n < 10 then [n] else natToDecDigits (n / 10) ++ [n % 10]

/-- The rendering of an address: `0x` then 40 hex digits, cased by `mask`
(the EIP-55 checksum is one particular mask). -/
def addressToChars (mask : List Bool) (a : Address) : List Nat :=
  48 :: 120 :: List.zipWith hexDigitChar mask (natToHexDigits 40 a)

/-- The decimal rendering of a `U256`. -/
def u256ToChars (n : U256) : List Nat :=
  (natToDecDigits n).map (fun d => 48 + d)

/-- `Display for IpnftUid`: `{address}_{token_id}`. -/
def ipnftUidToChars (mask : List Bool) (uid : IpnftUid) : List Nat :=
  addressToChars mask uid.ipnft_address ++ 95 :: u256ToChars uid.token_id

/-- Parse a digit string, all digits or nothing. -/
def parseBaseDigits (base : Nat) : List Nat → Option (List Nat)
  | [] => some []
  | c :: rest =>
    match baseDigitVal base c with
    | none => none
    | some d =>
      match parseBaseDigits base rest with
      | none => none
      | some ds => some (d :: ds)

/-- `Address::from_str`: strip an optional `0x`, require exactly 40
hexadecimal digits, case-insensitive. -/
def addressFromChars (cs : List Nat) : Option Address :=
  let stripped := if cs.take 2 = [48, 120] then cs.drop 2 else cs
  if stripped.length = 40 then
    match parseBaseDigits 16 stripped with
    | none => none
    | some ds => some (digitsVal 16 ds)
  else none

/-- `U256::from_str`: `0x`/`0b`/`0o` select the radix, decimal otherwise;
the digit string must be non-empty and the value must fit in 256 bits. -/
def u256FromChars (cs : List Nat) : Option U256 :=
  let parseWith : Nat → List Nat → Option U256 := fun base ds =>
    if ds.isEmpty then none
    else
      match parseBaseDigits base ds with
      | none => none
      | some digits =>
        let v := digitsVal base digits
        if v < 2 ^ 256 then some v else none
  if cs.take 2 = [48, 120] then parseWith 16 (cs.drop 2)
  else if cs.take 2 = [48, 98] then parseWith 2 (cs.drop 2)
  else if cs.take 2 = [48, 111] then parseWith 8 (cs.drop 2)
  else parseWith 10 cs

/-- `str::split('_')`. -/
def splitOnUnderscore : List Nat → List (List Nat)
  | [] => [[]]
  | c :: rest =>
    let r := splitOnUnderscore rest
    if c = 95 then [] :: r
    else
      match r with
      | [] => [[c]]
      | h :: t => (c :: h) :: t

/-- `IpnftUid::from_str` (`ipnft_uid.rs`, lines 20-42). -/
def ipnftUidFromChars (cs : List Nat) : Option IpnftUid :=
  match splitOnUnderscore cs with
  | [raw_address, raw_token_id] =>
    match addressFromChars raw_address with
    | none => none
    | some ipnft_address =>
      match u256FromChars raw_token_id with
      | none => none
      | some token_id => some ⟨ipnft_address, token_id⟩
  | _ => none

theorem hexDigitVal_hexDigitChar (upper : Bool) (d : Nat) (hd : d < 16) :
    hexDigitVal (hexDigitChar upper d) = some d := by
  cases upper <;> (interval_cases d <;> rfl)

theorem hexDigitChar_ne_95 (upper : Bool) (d : Nat) (hd : d < 16) :
    hexDigitChar upper d ≠ 95 := by
  cases upper <;> (interval_cases d <;> decide)

theorem natToHexDigits_lt (w : Nat) : ∀ n : Nat, ∀ d ∈ natToHexDigits w n, d < 16 := by
  induction w with
  | zero => intro n d hd; simp [natToHexDigits] at hd
  | succ w ih =>
    intro n d hd
    simp only [natToHexDigits, List.mem_append, List.mem_singleton] at hd
    rcases hd with hd | hd
    · exact ih _ d hd
    · subst hd; omega

theorem natToHexDigits_length (w n : Nat) : (natToHexDigits w n).length = w := by
  induction w generalizing n with
  | zero => rfl
  | succ w ih => simp [natToHexDigits, ih]

theorem zipWith_hexDigitChar_no95 (mask : List Bool) (ds : List Nat)
    (hds : ∀ d ∈ ds, d < 16) : 95 ∉ List.zipWith hexDigitChar mask ds := by
  induction mask generalizing ds with
  | nil => simp
  | cons u rest ih =>
    cases ds with
    | nil => simp
    | cons d drest =>
      simp only [List.zipWith_cons_cons, List.mem_cons, not_or]
      refine ⟨fun hc => hexDigitChar_ne_95 u d (hds d (by simp)) hc.symm, ?_⟩
      exact ih drest (fun x hx => hds x (by simp [hx]))

theorem addressToChars_no95 (mask : List Bool) (a : Address) : 95 ∉ addressToChars mask a := by
  simp only [addressToChars, List.mem_cons, not_or]
  exact ⟨by decide, by decide, zipWith_hexDigitChar_no95 mask _ (natToHexDigits_lt 40 a)⟩

theorem natToDecDigits_lt (n : Nat) : ∀ d ∈ natToDecDigits n, d < 10 := by
  induction n using Nat.strong_induction_on with
  | _ n ih =>
    intro d hd
    rw [natToDecDigits] at hd
    by_cases h : n < 10
    · rw [dif_pos h] at hd
      simp only [List.mem_singleton] at hd
      omega
    · rw [dif_neg h] at hd
      simp only [List.mem_append, List.mem_singleton] at hd
      rcases hd with hd | hd
      · exact ih (n / 10) (by omega) d hd
      · subst hd; omega

theorem natToDecDigits_ne_nil (n : Nat) : natToDecDigits n ≠ [] := by
  rw [natToDecDigits]
  by_cases h : n < 10
  · rw [dif_pos h]; simp
  · rw [dif_neg h]; simp

theorem u256ToChars_range (n : U256) : ∀ c ∈ u256ToChars n, 48 ≤ c ∧ c ≤ 57 := by
  intro c hc
  simp only [u256ToChars, List.mem_map] at hc
  obtain ⟨d, hd, rfl⟩ := hc
  have hlt := natToDecDigits_lt n d hd
  show 48 ≤ 48 + d ∧ 48 + d ≤ 57
  constructor
  · omega
  · omega

theorem u256ToChars_no95 (n : U256) : 95 ∉ u256ToChars n := by
  intro hc
  have h := (u256ToChars_range n 95 hc).2
  omega

theorem splitOn_no_sep (cs : List Nat) (h : 95 ∉ cs) :
    splitOnUnderscore cs = [cs] := by
  induction cs with
  | nil => rfl
  | cons c rest ih =>
    simp only [List.mem_cons, not_or] at h
    rw [splitOnUnderscore]
    simp only [if_neg (Ne.symm h.1), ih h.2]

theorem splitOn_single_sep (A B : List Nat) (hA : 95 ∉ A) (hB : 95 ∉ B) :
    splitOnUnderscore (A ++ 95 :: B) = [A, B] := by
  induction A with
  | nil =>
    simp only [List.nil_append]
    rw [splitOnUnderscore]
    simp [splitOn_no_sep B hB]
  | cons a A' ih =>
    simp only [List.mem_cons, not_or] at hA
    simp only [List.cons_append]
    rw [splitOnUnderscore]
    simp only [if_neg (Ne.symm hA.1), ih hA.2]

theorem digitsVal_append_singleton (base : Nat) (l : List Nat) (x : Nat) :
    digitsVal base (l ++ [x]) = digitsVal base l * base + x := by
  simp [digitsVal, List.foldl_append]

theorem digitsVal_natToHexDigits (w : Nat) : ∀ n : Nat,
    digitsVal 16 (natToHexDigits w n) = n % 16 ^ w := by
  induction w with
  | zero =>
    intro n
    simp only [natToHexDigits, digitsVal, List.foldl_nil, pow_zero]
    omega
  | succ w ih =>
    intro n
    rw [natToHexDigits, digitsVal_append_singleton, ih (n / 16)]
    rw [pow_succ, Nat.mul_comm (16 ^ w) 16, Nat.mod_mul]
    omega

theorem digitsVal_natToDecDigits (n : Nat) : digitsVal 10 (natToDecDigits n) = n := by
  induction n using Nat.strong_induction_on with
  | _ n ih =>
    rw [natToDecDigits]
    by_cases h : n < 10
    · rw [dif_pos h]; simp [digitsVal]
    · rw [dif_neg h, digitsVal_append_singleton, ih (n / 10) (by omega)]
      omega

theorem parseBaseDigits_hex_zipWith (mask : List Bool) : ∀ ds : List Nat,
    (∀ d ∈ ds, d < 16) → ds.length = mask.length →
    parseBaseDigits 16 (List.zipWith hexDigitChar mask ds) = some ds := by
  induction mask with
  | nil =>
    intro ds _ hlen
    rw [List.length_eq_zero.mp hlen]
    rfl
  | cons u rest ih =>
    intro ds hds hlen
    cases ds with
    | nil => simp at hlen
    | cons d drest =>
      have hd : d < 16 := hds d (by simp)
      have hbase : baseDigitVal 16 (hexDigitChar u d) = some d := by
        rw [baseDigitVal, hexDigitVal_hexDigitChar u d hd]
        simp [hd]
      simp only [List.zipWith_cons_cons, parseBaseDigits, hbase]
      rw [ih drest (fun x hx => hds x (by simp [hx])) (by simpa using hlen)]

theorem parseBaseDigits_dec_map (ds : List Nat) (hds : ∀ d ∈ ds, d < 10) :
    parseBaseDigits 10 (ds.map (fun d => 48 + d)) = some ds := by
  induction ds with
  | nil => rfl
  | cons d drest ih =>
    have hd : d < 10 := hds d (by simp)
    have hhex : hexDigitVal (48 + d) = some d := by
      interval_cases d <;> rfl
    have hbase : baseDigitVal 10 (48 + d) = some d := by
      rw [baseDigitVal, hhex]
      simp [hd]
    simp only [List.map_cons, parseBaseDigits, hbase]
    rw [ih (fun x hx => hds x (by simp [hx]))]

theorem addressFromChars_addressToChars (mask : List Bool) (a : Address)
    (hmask : mask.length = 40) (ha : a < 2 ^ 160) :
    addressFromChars (addressToChars mask a) = some a := by
  have hlen : (List.zipWith hexDigitChar mask (natToHexDigits 40 a)).length = 40 := by
    simp [List.length_zipWith, hmask, natToHexDigits_length]
  have hparse := parseBaseDigits_hex_zipWith mask (natToHexDigits 40 a)
    (natToHexDigits_lt 40 a) (by rw [natToHexDigits_length, hmask])
  rw [addressFromChars]
  simp only [addressToChars, List.take_succ_cons, List.take_zero, List.drop_succ_cons,
    List.drop_zero, if_true, hlen, hparse]
  rw [digitsVal_natToHexDigits]
  have h160 : (16 : Nat) ^ 40 = 2 ^ 160 := by norm_num
  rw [h160, Nat.mod_eq_of_lt ha]

theorem u256FromChars_u256ToChars (n : U256) (hn : n < 2 ^ 256) :
    u256FromChars (u256ToChars n) = some n := by
  have hpre : ∀ x : Nat, 58 ≤ x → (u256ToChars n).take 2 ≠ [48, x] := by
    intro x hx hcontr
    have hmem : x ∈ (u256ToChars n).take 2 := by rw [hcontr]; simp
    have := u256ToChars_range n x (List.take_subset 2 _ hmem)
    omega
  have hp120 := hpre 120 (by norm_num)
  have hp98 := hpre 98 (by norm_num)
  have hp111 := hpre 111 (by norm_num)
  have hne : (u256ToChars n).isEmpty = false := by
    rw [List.isEmpty_eq_false_iff_exists_mem]
    obtain ⟨d, hd⟩ := List.exists_mem_of_ne_nil _ (natToDecDigits_ne_nil n)
    exact ⟨48 + d, by simp only [u256ToChars, List.mem_map]; exact ⟨d, hd, rfl⟩⟩
  have hparse : parseBaseDigits 10 (u256ToChars n) = some (natToDecDigits n) :=
    parseBaseDigits_dec_map (natToDecDigits n) (natToDecDigits_lt n)
  rw [u256FromChars]
  simp only [if_neg hp120, if_neg hp98, if_neg hp111, hne, Bool.false_eq_true, if_false,
    hparse, digitsVal_natToDecDigits, if_pos hn]

/-- C9: serialising any well-formed `IpnftUid` (20-byte address, 256-bit
token id) to `{address}_{token_id}` and parsing the string back yields the
identical uid, for EVERY letter-casing of the hex address — in particular for
the EIP-55 checksummed casing the code emits. -/
theorem c9_ipnft_uid_roundtrip (uid : IpnftUid) (mask : List Bool)
    (haddr : uid.ipnft_address < 2 ^ 160) (htok : uid.token_id < 2 ^ 256)
    (hmask : mask.length = 40) :
    ipnftUidFromChars (ipnftUidToChars mask uid) = some uid := by
  have hsplit : splitOnUnderscore (ipnftUidToChars mask uid)
      = [addressToChars mask uid.ipnft_address, u256ToChars uid.token_id] :=
    splitOn_single_sep _ _ (addressToChars_no95 mask uid.ipnft_address)
      (u256ToChars_no95 uid.token_id)
  rw [ipnftUidFromChars, hsplit]
  simp only [addressFromChars_addressToChars mask uid.ipnft_address hmask haddr,
    u256FromChars_u256ToChars uid.token_id htok]

/-- C9 witness: the round trip evaluated at the concrete uid
`(address 1, token id 77)` with the all-lower-case mask. -/
theorem c9_ipnft_uid_roundtrip_witness :
    ipnftUidFromChars (ipnftUidToChars (List.replicate 40 false) ⟨1, 77⟩)
      = some ⟨1, 77⟩ :=
  c9_ipnft_uid_roundtrip ⟨1, 77⟩ (List.replicate 40 false)
    (by norm_num) (by norm_num) (by simp)

end MoleculeBridge
